import Mathlib

/-!
Verification of the TINT storm-cell tracking core against its specification.

The development shallowly embeds the two source files that contain the
core logic:

* `tint/phase_correlation.py` — phase-correlation flow estimation
  (`get_ambient_flow`, `fft_flowvectors`, `fft_crosscov`, `fft_shift`,
  `get_global_shift`);
* `tint/tracks.py` — the `Cell_tracks.get_tracks` scan-sequence loop.

2D arrays are embedded as `List (List _)`; NumPy float arithmetic is
embedded as exact arithmetic over `ℚ` (for the decision gates of the
code) and over `ℝ`/`ℂ` (for the FFT pipeline).  Helper modules of the
repository that are not part of the given sources (`helpers.py`,
`objects.py`, `matching.py`, `grid_utils.py`) are modelled from the
spec; each such definition says so in its doc comment.
-/

namespace TINT

/-- Python `int(x)` / `np.int(x)`: truncation of a float toward zero. -/
def pyInt (q : ℚ) : ℤ := if 0 ≤ q then ⌊q⌋ else ⌈q⌉

/-- `np.max` over a flattened 2-D rational array (source arrays are
nonempty; the empty case, on which NumPy raises, is totalised to 0). -/
def npMax (M : List (List ℚ)) : ℚ :=
  match M.flatten with
  | [] => 0
  | x :: xs => xs.foldl max x

/-- Entry `M[i][j]` of a 2-D array, defaulting to 0 out of range. -/
def entry (M : List (List ℚ)) (i j : ℕ) : ℚ := (M.getD i []).getD j 0

/-- Python slice `xs[l:u]` for `0 ≤ l`; a negative end index counts from
the end of the list, as in Python. -/
def pySlice (l u : ℤ) (xs : List α) : List α :=
  (xs.take (if u < 0 then ((xs.length : ℤ) + u).toNat else u.toNat)).drop l.toNat

/-- `img[rl:ru+1, cl:cu+1]` (source lines 36–37 of
`phase_correlation.py`). -/
def sliceWindow (M : List (List ℚ)) (rl ru cl cu : ℤ) : List (List ℚ) :=
  (pySlice rl (ru + 1) M).map (fun row => pySlice cl (cu + 1) row)

/-- `flow_region[flow_region != 0] = 1`: binarize, nonzero entries
become 1, zeros stay 0. -/
def binarize (M : List (List ℚ)) : List (List ℚ) :=
  M.map (fun row => row.map (fun x => if x ≠ 0 then 1 else 0))

/-- The four clipped bounding-box values computed by `get_ambient_flow`
(source lines 18–34 of `phase_correlation.py`).  Note that the column
upper bound is clamped with `np.max` against `dims[1]` (line 34), in
contrast to the row upper bound, which is clamped with `np.min`
(line 32). -/
def ambientBounds (center : ℚ × ℚ) (radius flowMargin gsY gsX : ℚ)
    (dims : ℕ × ℕ) : ℤ × ℤ × ℤ × ℤ :=
  let margin_r := flowMargin / gsY
  let margin_c := flowMargin / gsX
  let row_lb := pyInt (center.1 - radius - margin_r)
  let row_ub := pyInt (center.1 + radius + margin_r)
  let col_lb := pyInt (center.2 - radius - margin_c)
  let col_ub := pyInt (center.2 + radius + margin_c)
  (max row_lb 0, min row_ub (dims.1 : ℤ), max col_lb 0, max col_ub (dims.2 : ℤ))

/-- `fft_shift` (source lines 77–92 of `phase_correlation.py`): the
quadrant swap, written with the same four slices and three
concatenations as the source (`axis=0` is `++` of row lists, `axis=1`
is row-wise `++` via `zipWith`); generic in the entry type. -/
def fft_shift (M : List (List α)) (rd cd : ℕ) : List (List α) :=
  let quad1 := (M.take rd).map (fun r => r.take cd)
  let quad2 := (M.take rd).map (fun r => r.drop cd)
  let quad3 := (M.drop rd).map (fun r => r.drop cd)
  let quad4 := (M.drop rd).map (fun r => r.take cd)
  let centered_t := quad4 ++ quad1
  let centered_b := quad3 ++ quad2
  List.zipWith (· ++ ·) centered_b centered_t

noncomputable section

/-- `np.fft.fft2` on an `n × m` array, by its documented contract: the
exact 2-D discrete Fourier transform
`A[k,l] = Σ_{j,i} a[j,i]·exp(-2πi(jk/n + il/m))` (NumPy is an external
library; this is its specified semantics, in exact arithmetic). -/
def fft2 (M : List (List ℂ)) : List (List ℂ) :=
  let n := M.length
  let m := (M.headD []).length
  (List.range n).map fun k => (List.range m).map fun l =>
    ∑ j ∈ Finset.range n, ∑ i ∈ Finset.range m,
      (M.getD j []).getD i 0 *
        Complex.exp (-(2 * (Real.pi : ℂ) * Complex.I) *
          (((j * k : ℕ) : ℂ) / (n : ℂ) + ((i * l : ℕ) : ℂ) / (m : ℂ)))

/-- `np.fft.ifft2`: the exact inverse 2-D discrete Fourier transform
`a[j,i] = (1/(nm))·Σ_{k,l} A[k,l]·exp(+2πi(jk/n + il/m))`. -/
def ifft2 (M : List (List ℂ)) : List (List ℂ) :=
  let n := M.length
  let m := (M.headD []).length
  (List.range n).map fun j => (List.range m).map fun i =>
    (1 / ((n : ℂ) * (m : ℂ))) *
      ∑ k ∈ Finset.range n, ∑ l ∈ Finset.range m,
        (M.getD k []).getD l 0 *
          Complex.exp ((2 * (Real.pi : ℂ) * Complex.I) *
            (((j * k : ℕ) : ℂ) / (n : ℂ) + ((i * l : ℕ) : ℂ) / (m : ℂ)))

/-- `fft_crosscov` (source lines 65–74): conjugate of the first
transform times the second, normalized elementwise by its magnitude
with zero magnitudes replaced by 1, inverse transform, real part, then
the quadrant swap. -/
def fft_crosscov (im1 im2 : List (List ℂ)) (rd cd : ℕ) : List (List ℝ) :=
  let fft1_conj := (fft2 im1).map (fun r => r.map (starRingEnd ℂ))
  let fft2v := fft2 im2
  let prod := List.zipWith (fun r1 r2 => List.zipWith (· * ·) r1 r2) fft2v fft1_conj
  let normalize := prod.map (fun r => r.map
    (fun z => if Complex.abs z = 0 then 1 else Complex.abs z))
  let cps := List.zipWith
    (fun rp rn => List.zipWith (fun (z : ℂ) (x : ℝ) => z / (x : ℂ)) rp rn)
    prod normalize
  let crosscov := (ifft2 cps).map (fun r => r.map Complex.re)
  fft_shift crosscov rd cd

/-- Gaussian kernel weight `exp(-x²/(2σ²))` (scipy `_gaussian_kernel1d`,
order 0; scipy is external, this is its documented kernel). -/
def gaussWeight (σ : ℝ) (k : ℤ) : ℝ := Real.exp (-(k : ℝ) ^ 2 / (2 * σ ^ 2))

/-- scipy kernel half-width `int(truncate*sigma + 0.5)`, `truncate = 4`. -/
def gaussHalfWidth (σ : ℝ) : ℕ := ⌊4 * σ + 1 / 2⌋₊

/-- Sum of the (unnormalized) kernel weights; scipy divides by it. -/
def gaussNorm (σ : ℝ) : ℝ :=
  ∑ k ∈ Finset.Icc (-(gaussHalfWidth σ : ℤ)) (gaussHalfWidth σ : ℤ), gaussWeight σ k

/-- scipy boundary `mode='reflect'` (`(d c b a | a b c d | d c b a)`),
as a total function on out-of-range indices. -/
def reflectIdx (n : ℕ) (i : ℤ) : ℕ :=
  if n = 0 then 0 else
    let j := i % (2 * n : ℤ)
    if j < n then j.toNat else (2 * n - 1 - j).toNat

/-- One 1-D Gaussian correlation pass along a row. -/
def gfilterRow (σ : ℝ) (v : List ℝ) : List ℝ :=
  (List.range v.length).map fun i : ℕ =>
    (∑ k ∈ Finset.Icc (-(gaussHalfWidth σ : ℤ)) (gaussHalfWidth σ : ℤ),
      gaussWeight σ k * v.getD (reflectIdx v.length ((i : ℤ) + k)) 0) /
      gaussNorm σ

/-- The axis-0 (down each column) 1-D Gaussian pass. -/
def gfilterCols (σ : ℝ) (M : List (List ℝ)) : List (List ℝ) :=
  (List.range M.length).map fun i : ℕ =>
    (List.range ((M.headD []).length)).map fun j : ℕ =>
      (∑ k ∈ Finset.Icc (-(gaussHalfWidth σ : ℤ)) (gaussHalfWidth σ : ℤ),
        gaussWeight σ k *
          ((M.getD (reflectIdx M.length ((i : ℤ) + k)) []).getD j 0)) /
        gaussNorm σ

/-- `ndimage.filters.gaussian_filter(·, sigma)`: sequential 1-D passes
along axis 0 then axis 1. -/
def gaussian_filter (M : List (List ℝ)) (σ : ℝ) : List (List ℝ) :=
  (gfilterCols σ M).map (gfilterRow σ)

/-- `np.max` over a real 2-D array (nonempty in the source; the empty
case, on which NumPy raises, is totalised to 0). -/
def npMaxR (M : List (List ℝ)) : ℝ :=
  match M.flatten with
  | [] => 0
  | x :: xs => xs.foldl max x

/-- `np.argwhere(A == np.max(A))[0]`: the first row-major index at which
the array attains its maximum. -/
def argwhereMaxFst (M : List (List ℝ)) : ℤ × ℤ :=
  let mx := npMaxR M
  let idxs := (List.range M.length).flatMap fun i =>
    (List.range ((M.getD i []).length)).map fun j => ((i : ℤ), (j : ℤ))
  (idxs.find? fun p =>
    @decide ((M.getD p.1.toNat []).getD p.2.toNat 0 = mx)
      (Classical.propDecidable _)).getD (0, 0)

/-- Real field to complex entries (NumPy promotes real input of `fft2`). -/
def toCMat (M : List (List ℚ)) : List (List ℂ) :=
  M.map (fun r => r.map (fun q => (q : ℂ)))

/-- Lines 52–61 of `fft_flowvectors`, after the no-signal gate: shape,
pivot `rd, cd = ceil(dims/2)`, cross-covariance surface, Gaussian
smoothing with `sigma = (1/8)·min(crosscov.shape)`, first row-major
argmax, then subtraction of `dims - [rd, cd]`. -/
def pshiftOf (im1 im2 : List (List ℚ)) : ℤ × ℤ :=
  let n := im1.length
  let m := (im1.headD []).length
  let rd := (n + 1) / 2
  let cd := (m + 1) / 2
  let crosscov := fft_crosscov (toCMat im1) (toCMat im2) rd cd
  let sg := (1 / 8 : ℝ) * (min crosscov.length ((crosscov.headD []).length) : ℕ)
  let cov_smooth := gaussian_filter crosscov sg
  let p := argwhereMaxFst cov_smooth
  (p.1 - ((n : ℤ) - (rd : ℤ)), p.2 - ((m : ℤ) - (cd : ℤ)))

/-- Result of `fft_flowvectors`: the returned value, plus a flag
recording whether the unconditional interactive breakpoint
(`pdb.set_trace()`, source lines 49–50) was executed on that path. -/
structure FlowResult where
  result : Option (ℤ × ℤ)
  hitBreakpoint : Bool
  deriving DecidableEq

/-- `fft_flowvectors` (source lines 44–62): `None` if not in global
mode and either input has zero maximum; otherwise the debugger is
entered and the peak shift is computed and returned. -/
def fft_flowvectors (im1 im2 : List (List ℚ)) (global_shift : Bool) : FlowResult :=
  if ¬global_shift ∧ (npMax im1 = 0 ∨ npMax im2 = 0) then ⟨none, false⟩
  else ⟨some (pshiftOf im1 im2), true⟩

/-- The two binarized flow windows extracted by `get_ambient_flow`
(source lines 36–40). -/
def ambientWindows (center : ℚ × ℚ) (radius flowMargin gsY gsX : ℚ)
    (img1 img2 : List (List ℚ)) : List (List ℚ) × List (List ℚ) :=
  let dims := (img1.length, (img1.headD []).length)
  let b := ambientBounds center radius flowMargin gsY gsX dims
  (binarize (sliceWindow img1 b.1 b.2.1 b.2.2.1 b.2.2.2),
   binarize (sliceWindow img2 b.1 b.2.1 b.2.2.1 b.2.2.2))

/-- `get_ambient_flow` (source lines 14–41): clipped window around the
object, binarized sub-windows of both fields, then local-mode flow
estimation. -/
def get_ambient_flow (center : ℚ × ℚ) (radius flowMargin gsY gsX : ℚ)
    (img1 img2 : List (List ℚ)) : FlowResult :=
  let w := ambientWindows center radius flowMargin gsY gsX img1 img2
  fft_flowvectors w.1 w.2 false

/-- `get_global_shift` (source lines 95–101): `None` if the second
frame is absent, otherwise whole-field flow estimation in global mode. -/
def get_global_shift (im1 : List (List ℚ)) (im2 : Option (List (List ℚ))) :
    FlowResult :=
  match im2 with
  | none => ⟨none, false⟩
  | some im2v => fft_flowvectors im1 im2v true

end

/-! ### The scan-sequence orchestrator (`tint/tracks.py`)

The loop of `Cell_tracks.get_tracks` is embedded with its collaborators
from `helpers.py`, `objects.py`, `matching.py` and `grid_utils.py`
(repository modules that are not among the given sources) modelled from
the spec; every such definition says so.  Rows carry (scan index, uid);
the external PropertyExtractor's physical per-object properties, the
rain-accumulation rasters and their file output are not modelled. -/

/-- One scan, with the products the loop's decisions depend on already
extracted.  Modelled from the spec: the external GridProcessor
(`extract_grid_data` in `grid_utils.py`) yields per scan a raw field
and a labelled detection frame (`frames[TRACK_INTERVAL]`, labels
`1..k`); `time` is the scan timestamp in whole seconds. -/
structure Scan where
  time : ℕ
  raw : List ℚ
  frame : List ℕ
  deriving DecidableEq

/-- `np.max` of a flattened raw field (nonempty in the source;
totalised). -/
def listMaxQ (l : List ℚ) : ℚ :=
  match l with
  | [] => 0
  | x :: xs => xs.foldl max x

/-- `np.max` of a flattened detection frame. -/
def listMaxN (l : List ℕ) : ℕ :=
  match l with
  | [] => 0
  | x :: xs => xs.foldl max x

/-- Number of labelled objects in a detection frame (labels `1..k`). -/
def nObj (frame : List ℕ) : ℕ := listMaxN frame

/-- Modelled from the spec: the `Record` class of `helpers.py` holds the
current scan index, the current timestamp, and the interval since the
previous scan in total seconds (nullable before the first pair). -/
structure Record where
  scan : ℤ
  time : ℕ
  interval : Option ℕ
  deriving DecidableEq

/-- Modelled from the spec: `Record(grid)` at initialization; the first
`update_scan_and_time` then yields scan index 0. -/
def Record.init (g : Scan) : Record := ⟨-1, g.time, none⟩

/-- Modelled from the spec: `record.update_scan_and_time(g1, g2)` for a
"from/to" pair of grids. -/
def Record.update2 (r : Record) (g1 g2 : Scan) : Record :=
  ⟨r.scan + 1, g2.time, some (g2.time - g1.time)⟩

/-- Modelled from the spec: `record.update_scan_and_time(g1)` for the
terminal sentinel iteration ("from" grid only). -/
def Record.update1 (r : Record) (g1 : Scan) : Record :=
  ⟨r.scan + 1, g1.time, r.interval⟩

/-- Python `timedelta.seconds`: the sub-day seconds component of an
interval, i.e. total seconds modulo 86400 — not the total elapsed
seconds (that is `timedelta.total_seconds()`). -/
def tdSeconds (totalSeconds : ℕ) : ℕ := totalSeconds % 86400

/-- Fresh uids `c, …, c+k-1` minted from a Counter standing at `c`.
Modelled from the spec: the Counter is a monotonically increasing
source of unique object identifiers, never reused. -/
def mintUids (c k : ℕ) : List ℕ := (List.range k).map (c + ·)

/-- Modelled from the spec: `init_current_objects` (`objects.py`)
(re)initializes the registry from the current pairing, minting one
fresh uid per object of the current frame via the Counter. -/
def initObjects (frame1 : List ℕ) (c : ℕ) : List ℕ × ℕ :=
  (mintUids c (nObj frame1), c + nObj frame1)

/-- Modelled from the spec: `update_current_objects` (`objects.py`)
continues uids for matched objects, retires unmatched predecessors and
mints fresh uids for unmatched successors.  The external Matcher's
pairing is left unspecified by the spec; it is modelled as
label-identity pairing.  The uid-minting discipline — continue from the
registry, mint only fresh uids from the Counter — is the part the
claims depend on. -/
def updateObjects (old : List ℕ) (frame1 : List ℕ) (c : ℕ) : List ℕ × ℕ :=
  let k := nObj frame1
  (old.take k ++ mintUids c (k - old.length), c + (k - old.length))

/-- A TracksTable row: (scan index, uid). -/
abbrev Row := ℤ × ℕ

/-- The Python exceptions the embedded code can raise. -/
inductive PyErr where
  | typeErr
  | nameErr
  | keyErr
  | stopIterationErr
  deriving DecidableEq

/-- The state carried by the `get_tracks` loop (the `self.…` attributes
of `Cell_tracks`, plus two instrumentation fields: `flowCalls` counts
arrivals at the flow-estimation call site, `processed` logs the `g1`
of every record-updating iteration in order). -/
structure LoopSt where
  counter : ℕ
  record : Record
  currentObjects : Option (List ℕ)
  tracks : List Row
  lastGrid : Option Scan
  savedRecord : Option Record
  savedCounter : Option ℕ
  savedObjects : Option (Option (List ℕ))
  flowCalls : ℕ
  processed : List Scan
  deriving DecidableEq

/-- Number of parameters of `def get_global_shift(im1, im2)`
(`phase_correlation.py`, line 95). -/
def getGlobalShiftParamCount : ℕ := 2

/-- Number of arguments at the call site
`get_global_shift(raw1, raw2, self.params)` (`tracks.py`, line 271). -/
def flowCallArgCount : ℕ := 3

/-- The flow-estimation step of `tracks.py` line 271 under Python call
semantics: a call passing `flowCallArgCount` arguments to a function of
`getGlobalShiftParamCount` parameters raises `TypeError` before the
callee body runs.  With `arityFixed = true` the step is instead the
spec's §4.4f step (modelled from the spec; the resulting shift feeds
only the external Matcher, so its value is not tracked here). -/
def flowStep (arityFixed : Bool) : Option PyErr :=
  if arityFixed then none
  else if flowCallArgCount = getGlobalShiftParamCount then none
  else some .typeErr

/-- Outcome of one loop iteration. -/
structure IterOut where
  st : LoopSt
  newRain : Bool
  err : Option PyErr
  deriving DecidableEq

/-- Lines 263–300 of `tracks.py` for the current previous-scan `g1`:
the empty-frame skip (no row, clear the registry, mark fresh objects
pending, no flow call), else flow estimation followed by registry
init/update and row writing (one row per active object, tagged with the
current scan index).  The registry/matching collaborators are the
spec-modelled ones above. -/
def iterTail (arityFixed : Bool) (g1 : Scan) (newRain : Bool) (st : LoopSt) :
    IterOut :=
  if listMaxN g1.frame = 0 then
    ⟨{ st with currentObjects := none }, true, none⟩
  else
    match flowStep arityFixed with
    | some e => ⟨{ st with flowCalls := st.flowCalls + 1 }, newRain, some e⟩
    | none =>
      let st1 := { st with flowCalls := st.flowCalls + 1 }
      let oc := if newRain then initObjects g1.frame st1.counter
                else updateObjects (st1.currentObjects.getD []) g1.frame st1.counter
      let rows := oc.1.map (fun u => (st1.record.scan, u))
      ⟨{ st1 with counter := oc.2, currentObjects := some oc.1,
                  tracks := st1.tracks ++ rows }, false, none⟩

/-- Lines 235–252 plus the iteration tail, for a pair `(g1, g2)`:
update the record for the pair; if the interval's `seconds` attribute
(the sub-day component) exceeds 1700, clear the registry and mark a
fresh object set pending; then run the tail. -/
def iterPair (arityFixed : Bool) (g1 g2 : Scan) (newRain : Bool) (st : LoopSt) :
    IterOut :=
  let record1 := st.record.update2 g1 g2
  let st1 := { st with record := record1, processed := st.processed ++ [g1] }
  let gap := match record1.interval with
    | none => false
    | some iv => decide (1700 < tdSeconds iv)
  let st2 := if gap then { st1 with currentObjects := none } else st1
  iterTail arityFixed g1 (if gap then true else newRain) st2

/-- Lines 254–261 plus the iteration tail, for the terminal sentinel
iteration: `__save()` deep-copies record/counter/registry, the last
real grid is stored in `last_grid`, the record is updated with a
"from" grid only, and the last real scan is processed against the
synthesized all-zero frame. -/
def iterTerminal (arityFixed : Bool) (g1 : Scan) (newRain : Bool) (st : LoopSt) :
    IterOut :=
  let st1 := { st with
    savedRecord := some st.record,
    savedCounter := some st.counter,
    savedObjects := some st.currentObjects,
    lastGrid := some g1 }
  let record1 := st1.record.update1 g1
  let st2 := { st1 with record := record1, processed := st1.processed ++ [g1] }
  iterTail arityFixed g1 newRain st2

/-- The `while grid_obj2 is not None` loop (lines 206–303), as
structural recursion over the unread scans.  Each iteration replays
lines 207–217 — in particular the `frame0 = copy.deepcopy(frame1)`
rebinding of line 209, which raises `NameError` when `newRain` is false
on the very first iteration of a call, `frame1` being not yet bound —
then the artificial-zero skip of lines 219–231, then the pair or
terminal iteration. -/
def runLoop (arityFixed : Bool) (g1 : Scan) (newRain prevBound : Bool)
    (st : LoopSt) : List Scan → LoopSt × Option PyErr
  | [] =>
    if ¬newRain ∧ ¬prevBound then (st, some .nameErr)
    else
      let o := iterTerminal arityFixed g1 newRain st
      (o.st, o.err)
  | s :: rest =>
    if ¬newRain ∧ ¬prevBound then (st, some .nameErr)
    else if 30 < listMaxQ g1.raw ∧ listMaxQ s.raw = 0 then
      runLoop arityFixed g1 newRain prevBound st rest
    else
      let o := iterPair arityFixed g1 s newRain st
      match o.err with
      | some e => (o.st, some e)
      | none => runLoop arityFixed s o.newRain true o.st rest

/-- The persistent `Cell_tracks` instance state between calls. -/
structure CT where
  counter : Option ℕ
  record : Option Record
  currentObjects : Option (List ℕ)
  tracks : List Row
  lastGrid : Option Scan
  savedRecord : Option Record
  savedCounter : Option ℕ
  savedObjects : Option (Option (List ℕ))
  deriving DecidableEq

/-- `Cell_tracks.__init__`. -/
def CT.fresh : CT := ⟨none, none, none, [], none, none, none, none⟩

/-- Result of one `get_tracks` call: the instance state on return (or at
the uncaught exception), the exception if any, and the instrumentation. -/
structure RunOut where
  ct : CT
  err : Option PyErr
  flowCalls : ℕ
  processed : List Scan
  deriving DecidableEq

/-- Exit paths of `get_tracks`: on an uncaught exception the instance
keeps its mid-loop attributes; on success the two external
post-processing passes run (spec-modelled table-to-table maps; identity
here, since row contents beyond (scan, uid) are not modelled) and
`__load()` restores record/counter/registry from the `__save()`
snapshot. -/
def finishRun : LoopSt × Option PyErr → RunOut
  | (st, some e) =>
    ⟨⟨some st.counter, some st.record, st.currentObjects, st.tracks,
      st.lastGrid, st.savedRecord, st.savedCounter, st.savedObjects⟩,
     some e, st.flowCalls, st.processed⟩
  | (st, none) =>
    ⟨⟨st.savedCounter, st.savedRecord, (st.savedObjects).getD none, st.tracks,
      st.lastGrid, st.savedRecord, st.savedCounter, st.savedObjects⟩,
     none, st.flowCalls, st.processed⟩

/-- `Cell_tracks.get_tracks` (lines 176–334), parameterized by
`arityFixed` (see `flowStep`).  First call: pull the first grid and
initialize counter/record.  Later call: resume from `last_grid`; line
194 evaluates `self.tracks.drop(self.record.scan + 1)`, which raises
`KeyError` if the label is absent and otherwise produces a dropped
*copy* that is discarded, leaving `self.tracks` unchanged. -/
def get_tracksModel (arityFixed : Bool) (ct : CT) (scans : List Scan) : RunOut :=
  match ct.record with
  | none =>
    match scans with
    | [] => ⟨ct, some .stopIterationErr, 0, []⟩
    | g2 :: rest =>
      let st : LoopSt :=
        ⟨0, Record.init g2, ct.currentObjects, ct.tracks, ct.lastGrid,
         ct.savedRecord, ct.savedCounter, ct.savedObjects, 0, []⟩
      finishRun (runLoop arityFixed g2 ct.currentObjects.isNone false st rest)
  | some rec =>
    match ct.lastGrid with
    | none => ⟨ct, some .nameErr, 0, []⟩
    | some lg =>
      if ct.tracks.any (fun r => r.1 = rec.scan + 1) then
        let st : LoopSt :=
          ⟨ct.counter.getD 0, rec, ct.currentObjects, ct.tracks, ct.lastGrid,
           ct.savedRecord, ct.savedCounter, ct.savedObjects, 0, []⟩
        finishRun (runLoop arityFixed lg ct.currentObjects.isNone false st scans)
      else ⟨ct, some .keyErr, 0, []⟩

/-- `get_tracks` as written: the three-argument flow call is live. -/
def get_tracks (ct : CT) (scans : List Scan) : RunOut :=
  get_tracksModel false ct scans

/-- Modelled from the spec: `get_tracks` with the flow-estimation call
repaired to the two-argument form the spec's §4.4f describes.  The
orchestrator logic downstream of that call is unreachable in the code
as written (claim C2), so claims about it are settled against this
model. -/
def get_tracksSpec (ct : CT) (scans : List Scan) : RunOut :=
  get_tracksModel true ct scans

/-- The concrete three-scan scenario used for the resumption claims:
one object throughout, scans 600 s apart (no time gap anywhere). -/
def scanA : Scan := ⟨0, [35], [1]⟩

/-- Second scan of the resumption scenario. -/
def scanB : Scan := ⟨600, [35], [1]⟩

/-- Third scan of the resumption scenario. -/
def scanC : Scan := ⟨1200, [35], [1]⟩

/-- First scan of the day-wrap gap scenario. -/
def scanG1 : Scan := ⟨0, [35], [1]⟩

/-- Second scan of the day-wrap gap scenario: 86410 s (one day and ten
seconds) after the first. -/
def scanG2 : Scan := ⟨86410, [35], [1]⟩

/-- A row's scan index points at a processed scan whose detection frame
was nonempty. -/
def rowOk (processed : List Scan) (r : Row) : Prop :=
  ∃ i : ℕ, r.1 = (i : ℤ) ∧
    ∃ g, processed[i]? = some g ∧ listMaxN g.frame ≠ 0

/-- Row `i` of the quadrant swap: the source row is `i + rd` when
`i < n - rd` and `i - (n - rd)` otherwise, with its columns rotated
by `cd`. -/
theorem fft_shift_getElem? (M : List (List α)) (rd cd : ℕ)
    (hrd : rd ≤ M.length) (i : ℕ) (hi : i < M.length) :
    (fft_shift M rd cd)[i]? =
      (M[if i < M.length - rd then i + rd else i - (M.length - rd)]?).map
        (fun r => r.drop cd ++ r.take cd) := by
  simp only [fft_shift]
  rw [List.getElem?_zipWith']
  by_cases h : i < M.length - rd
  · rw [List.getElem?_append_left (by simpa using h),
      List.getElem?_append_left (by simpa using h),
      List.getElem?_map, List.getElem?_map, List.getElem?_drop,
      if_pos h, Nat.add_comm i rd]
    have hlt : rd + i < M.length := by omega
    rw [List.getElem?_eq_getElem hlt]
    rfl
  · have hlen1 : ((M.drop rd).map (fun r => r.drop cd)).length ≤ i := by
      simpa using by omega
    have hlen2 : ((M.drop rd).map (fun r => r.take cd)).length ≤ i := by
      simpa using by omega
    rw [List.getElem?_append_right hlen1, List.getElem?_append_right hlen2,
      List.getElem?_map, List.getElem?_map]
    simp only [List.length_map, List.length_drop]
    have hj : i - (M.length - rd) < rd := by omega
    rw [List.getElem?_take_of_lt hj]
    rw [if_neg h]
    have hjlt : i - (M.length - rd) < M.length := by omega
    rw [List.getElem?_eq_getElem hjlt]
    rfl

end TINT

/-- Claim C1: the sub-window bounds computed by `get_ambient_flow` always
lie within the valid field index range on both axes.  This fails on the
code: the column upper bound is clamped with a maximum (`np.max`, line 34
of `phase_correlation.py`) instead of a minimum, so for an object whose
unclipped column upper bound exceeds the field width the bound is left
out of range.  Concretely, for an object centered at (5,5) with radius 2,
margin 20000 m, grid cell 2500 m (8 cells of margin) on a 10×10 field,
the row upper bound is clipped to 10 but the column upper bound stays 15. -/
theorem C1_ambient_bounds_unclipped :
    TINT.ambientBounds ((5 : ℚ), (5 : ℚ)) 2 20000 2500 2500 (10, 10) =
      (0, 10, 0, 15) ∧ (10 : ℤ) < 15 := by
  refine ⟨?_, by norm_num⟩
  simp only [TINT.ambientBounds, TINT.pyInt]
  norm_num [Int.ceil_neg]

open TINT in
/-- Claim C8 counterexample: on a 3×3 surface with the code's pivot
`rd = cd = ceil(3/2) = 2`, the value originally at index `(0,0)` is
*not* at the pivot `(2,2)` after the quadrant swap (it is at `(1,1)`,
i.e. at `dims - (rd, cd)`; entry `(2,2)` of the swapped array holds the
original `(1,1)` value 5, not 1). -/
theorem C8_counterexample :
    ¬ (((fft_shift [[1, 2, 3], [4, 5, 6], [7, 8, 9]] 2 2).getD 2 []).getD 2 (0 : ℤ)
        = (([[1, 2, 3], [4, 5, 6], [7, 8, 9]] : List (List ℤ)).getD 0 []).getD 0 0) := by
  decide

open TINT in
/-- Claim C8 (amended): for equal-shaped inputs and the pivot
`(rd, cd) = ceil(dims/2)` per axis, the surface after the quadrant swap
has the same shape as the input, and the zero-lag value, originally at
index `(0,0)`, is located at index `dims - (rd, cd)` — that is,
`(floor(n/2), floor(m/2))` — not at the pivot itself (the code's own
comment at lines 58–61 subtracts exactly `dims - [rd, cd]`). -/
theorem C8_quadrant_swap_amended (M : List (List α)) (n m rd cd : ℕ)
    (hn : M.length = n) (hm : ∀ row ∈ M, row.length = m)
    (hn1 : 1 ≤ n) (hm1 : 1 ≤ m)
    (hrd : rd = (n + 1) / 2) (hcd : cd = (m + 1) / 2) :
    (fft_shift M rd cd).length = n ∧
    (∀ row ∈ fft_shift M rd cd, row.length = m) ∧
    ∀ d : α, ((fft_shift M rd cd).getD (n - rd) []).getD (m - cd) d =
      (M.getD 0 []).getD 0 d := by
  subst hn
  have hrdle : rd ≤ M.length := by omega
  have hcdle : cd ≤ m := by omega
  have hlen : (fft_shift M rd cd).length = M.length := by
    simp only [fft_shift, List.length_zipWith, List.length_append,
      List.length_map, List.length_drop, List.length_take]
    omega
  refine ⟨hlen, ?_, ?_⟩
  · intro row hrow
    rw [List.mem_iff_getElem?] at hrow
    obtain ⟨i, hi⟩ := hrow
    have hilt : i < M.length := by
      have := (List.getElem?_eq_some.mp hi).1
      omega
    rw [fft_shift_getElem? M rd cd hrdle i hilt] at hi
    rw [Option.map_eq_some'] at hi
    obtain ⟨r, hr, hrow⟩ := hi
    have hrmem : r ∈ M := List.mem_iff_getElem?.mpr ⟨_, hr⟩
    have hrlen := hm r hrmem
    subst hrow
    simp only [List.length_append, List.length_drop, List.length_take, hrlen]
    omega
  · intro d
    have h1 : M.length - rd < M.length := by omega
    have h0 : 0 < M.length := by omega
    have hr0mem : M[0] ∈ M := List.getElem_mem h0
    have hr0len := hm _ hr0mem
    rw [List.getD_eq_getElem?_getD, List.getD_eq_getElem?_getD,
      fft_shift_getElem? M rd cd hrdle (M.length - rd) h1, if_neg (by omega),
      Nat.sub_self, List.getElem?_eq_getElem h0]
    simp only [Option.map_some', Option.getD_some]
    rw [List.getElem?_append_right (by simp [hr0len]),
      List.length_drop, hr0len, Nat.sub_self,
      List.getElem?_take_of_lt (by omega),
      List.getElem?_eq_getElem (by omega)]
    simp [List.getD_eq_getElem?_getD, List.getElem?_eq_getElem h0,
      List.getElem?_eq_getElem (show (0 : ℕ) < M[0].length by omega)]

open TINT in
/-- Witness for the amended C8 at a concrete 2×2 input: the swap of
`[[1,2],[3,4]]` with pivot `(1,1)` keeps shape `2×2` and places the
original `(0,0)` entry at `(2-1, 2-1) = (1,1)`. -/
theorem C8_quadrant_swap_amended_witness :
    (fft_shift [[1, 2], [3, 4]] 1 1).length = 2 ∧
    ((fft_shift [[1, 2], [3, 4]] 1 1).getD (2 - 1) []).getD (2 - 1) (0 : ℤ) =
      (([[1, 2], [3, 4]] : List (List ℤ)).getD 0 []).getD 0 0 := by
  have h := C8_quadrant_swap_amended ([[1, 2], [3, 4]] : List (List ℤ)) 2 2 1 1
    rfl (by decide) (by decide) (by decide) (by decide) (by decide)
  exact ⟨h.1, h.2.2 0⟩

open TINT in
/-- Claim C10: every call of `fft_flowvectors` that passes the no-signal
gate (global mode, or both inputs with nonzero maximum) executes the
unconditional `pdb.set_trace()` breakpoint of lines 49–50 before
computing the shift; consequently a shift estimate is never returned
without the debugger having been entered. -/
theorem C10_breakpoint_always_hit (im1 im2 : List (List ℚ)) (g : Bool)
    (h : g = true ∨ (npMax im1 ≠ 0 ∧ npMax im2 ≠ 0)) :
    (fft_flowvectors im1 im2 g).hitBreakpoint = true ∧
    ∀ (a b : List (List ℚ)) (g' : Bool),
      (fft_flowvectors a b g').result.isSome = true →
      (fft_flowvectors a b g').hitBreakpoint = true := by
  constructor
  · unfold fft_flowvectors
    rw [if_neg]
    rintro ⟨hg, hz⟩
    rcases h with h | ⟨h1, h2⟩
    · exact hg (by simp [h])
    · rcases hz with hz | hz
      · exact h1 hz
      · exact h2 hz
  · intro a b g' hres
    unfold fft_flowvectors at hres ⊢
    by_cases hc : ¬(g' = true) ∧ (npMax a = 0 ∨ npMax b = 0)
    · rw [if_pos hc] at hres
      simp at hres
    · rw [if_neg hc]

open TINT in
/-- Witness for C10 at a concrete input passing the gate. -/
theorem C10_breakpoint_witness :
    (fft_flowvectors [[1]] [[1]] false).hitBreakpoint = true :=
  (C10_breakpoint_always_hit [[1]] [[1]] false
    (Or.inr ⟨by decide, by decide⟩)).1

open TINT in
/-- In the code as written, every run of the loop that reaches the
flow-estimation call exits with `TypeError`: empty-frame iterations skip
it and keep `newRain` set, and the first nonempty-frame iteration hits
the three-argument call. -/
theorem runLoop_arity_typeErr (rest : List Scan) :
    ∀ (g1 : Scan) (pb : Bool) (st : LoopSt),
      (∀ s ∈ g1 :: rest, listMaxQ s.raw = 0 → listMaxN s.frame = 0) →
      (∃ s ∈ g1 :: rest, listMaxN s.frame ≠ 0) →
      (runLoop false g1 true pb st rest).2 = some PyErr.typeErr := by
  induction rest with
  | nil =>
    intro g1 pb st _ hne
    obtain ⟨s, hs, hsne⟩ := hne
    have hsg : s = g1 := by simpa using hs
    subst hsg
    simp only [runLoop, iterTerminal, iterTail]
    rw [if_neg (by simp)]
    rw [if_neg hsne]
    rfl
  | cons s rest ih =>
    intro g1 pb st hwf hne
    simp only [runLoop]
    rw [if_neg (by simp)]
    by_cases hskip : 30 < listMaxQ g1.raw ∧ listMaxQ s.raw = 0
    · rw [if_pos hskip]
      refine ih g1 pb st ?_ ?_
      · intro t ht
        rcases List.mem_cons.mp ht with h | h
        · exact hwf t (h ▸ List.mem_cons_self _ _)
        · exact hwf t (List.mem_cons_of_mem _ (List.mem_cons_of_mem _ h))
      · obtain ⟨t, ht, htne⟩ := hne
        rcases List.mem_cons.mp ht with h | h
        · exact ⟨g1, List.mem_cons_self _ _, h ▸ htne⟩
        · rcases List.mem_cons.mp h with h2 | h2
          · exact absurd (hwf t (h2 ▸ List.mem_cons_of_mem _
              (List.mem_cons_self _ _)) (h2 ▸ hskip.2)) htne
          · exact ⟨t, List.mem_cons_of_mem _ h2, htne⟩
    · rw [if_neg hskip]
      by_cases hempty : listMaxN g1.frame = 0
      · have hiter : (iterPair false g1 s true st).err = none ∧
            (iterPair false g1 s true st).newRain = true := by
          simp only [iterPair, iterTail]
          rw [if_pos hempty]
          exact ⟨rfl, rfl⟩
        rcases hrw : iterPair false g1 s true st with ⟨st', nr', e'⟩
        rw [hrw] at hiter
        obtain ⟨he, hnr⟩ := hiter
        simp only at he hnr
        subst he; subst hnr
        refine ih s true st' ?_ ?_
        · intro t ht
          exact hwf t (List.mem_cons_of_mem _ ht)
        · obtain ⟨t, ht, htne⟩ := hne
          rcases List.mem_cons.mp ht with h | h
          · exact absurd (h ▸ hempty) htne
          · exact ⟨t, h, htne⟩
      · have hiter : (iterPair false g1 s true st).err = some PyErr.typeErr := by
          simp only [iterPair, iterTail]
          rw [if_neg hempty]
          rfl
        rcases hrw : iterPair false g1 s true st with ⟨st', nr', e'⟩
        rw [hrw] at hiter
        simp only at hiter
        subst hiter
        rfl

open TINT in
/-- Claim C2: the main loop calls `get_global_shift` with three
arguments (`raw1, raw2, self.params`, `tracks.py` line 271) although it
is defined with exactly two parameters (`phase_correlation.py` line
95); hence on a fresh instance, any input sequence containing a scan
with a nonempty detection frame makes the flow-estimation step raise
`TypeError` instead of producing a shift.  (`hwf`: a scan whose raw
field is entirely zero has an empty detection frame — true of the
external frame extractor, which thresholds the raw field at 32.) -/
theorem C2_flow_call_arity (scans : List Scan)
    (hwf : ∀ s ∈ scans, listMaxQ s.raw = 0 → listMaxN s.frame = 0)
    (hne : ∃ s ∈ scans, listMaxN s.frame ≠ 0) :
    (get_tracks CT.fresh scans).err = some PyErr.typeErr ∧
    flowCallArgCount = 3 ∧ getGlobalShiftParamCount = 2 := by
  refine ⟨?_, rfl, rfl⟩
  cases scans with
  | nil =>
    obtain ⟨s, hs, _⟩ := hne
    exact absurd hs (List.not_mem_nil s)
  | cons g rest =>
    have hstep : get_tracks CT.fresh (g :: rest) =
        finishRun (runLoop false g true false
          ⟨0, Record.init g, none, [], none, none, none, none, 0, []⟩ rest) := rfl
    rw [hstep]
    have h2 := runLoop_arity_typeErr rest g false
      ⟨0, Record.init g, none, [], none, none, none, none, 0, []⟩ hwf hne
    rcases hpair : runLoop false g true false
      ⟨0, Record.init g, none, [], none, none, none, none, 0, []⟩ rest with ⟨st', e⟩
    rw [hpair] at h2
    simp only at h2
    subst h2
    rfl

open TINT in
/-- Witness for C2: a single scan with a nonempty detection frame. -/
theorem C2_flow_call_arity_witness :
    (get_tracks CT.fresh [⟨0, [35], [1]⟩]).err = some PyErr.typeErr ∧
    flowCallArgCount = 3 ∧ getGlobalShiftParamCount = 2 :=
  C2_flow_call_arity [⟨0, [35], [1]⟩] (by decide) (by decide)

open TINT in
/-- Claim C3: resumption equivalence fails on the code.  In the
concrete three-scan scenario (one object, 600 s apart, no gap at the
boundary), processing `[A, B]` then `[C]` on the same instance does not
give the table of processing `[A, B, C]` in one call: the superseded
terminal row for scan 1 is never dropped (line 194 discards the result
of `DataFrame.drop`), and the resumed call raises `NameError` at line
209 (`frame1` is unbound while `newRain` is false), so the second
segment contributes no rows at all. -/
theorem C3_resumption_inequivalent :
    (get_tracksSpec (get_tracksSpec CT.fresh [scanA, scanB]).ct [scanC]).ct.tracks ≠
      (get_tracksSpec CT.fresh [scanA, scanB, scanC]).ct.tracks ∧
    (get_tracksSpec (get_tracksSpec CT.fresh [scanA, scanB]).ct [scanC]).err =
      some PyErr.nameErr ∧
    (get_tracksSpec CT.fresh [scanA, scanB, scanC]).err = none ∧
    scanB.time - scanA.time ≤ 1700 ∧ scanC.time - scanB.time ≤ 1700 := by
  refine ⟨by decide, by decide, by decide, by decide, by decide⟩

open TINT in
/-- Claim C4: on a later (dynamic-update) call the superseded terminal
row is *not* discarded.  After processing `[A, B]`, the instance's
record holds scan 0 and the terminal row has label 1; the resumed call
evaluates `self.tracks.drop(self.record.scan + 1)` but discards the
result (line 194), so row `(1, 0)` is still present in the table when
the call returns. -/
theorem C4_superseded_row_not_dropped :
    (get_tracksSpec CT.fresh [scanA, scanB]).ct.record =
      some ⟨0, 600, some 600⟩ ∧
    ((1 : ℤ), (0 : ℕ)) ∈
      (get_tracksSpec (get_tracksSpec CT.fresh [scanA, scanB]).ct [scanC]).ct.tracks := by
  refine ⟨by decide, by decide⟩

namespace TINT

/-- `rowOk` is stable under extending the processed-scan log. -/
theorem rowOk_append (p q : List Scan) (r : Row) (h : rowOk p r) :
    rowOk (p ++ q) r := by
  obtain ⟨i, hi, g, hg, hne⟩ := h
  have hlt : i < p.length := (List.getElem?_eq_some.mp hg).1
  exact ⟨i, hi, g, by rw [List.getElem?_append_left hlt]; exact hg, hne⟩

/-- The iteration tail preserves the row/processed-scan invariant: rows
are written only for a nonempty current frame, tagged with the scan
index of the just-logged scan. -/
theorem iterTail_invariant (af : Bool) (g1 : Scan) (nr : Bool) (st : LoopSt)
    (hinv : ∀ r ∈ st.tracks, rowOk st.processed r)
    (hg1 : st.processed[st.processed.length - 1]? = some g1)
    (hlen : 0 < st.processed.length)
    (hscan : st.record.scan = (st.processed.length : ℤ) - 1) :
    (∀ r ∈ (iterTail af g1 nr st).st.tracks,
      rowOk (iterTail af g1 nr st).st.processed r) ∧
    (iterTail af g1 nr st).st.record.scan =
      ((iterTail af g1 nr st).st.processed.length : ℤ) - 1 := by
  unfold iterTail
  by_cases h : listMaxN g1.frame = 0
  · rw [if_pos h]
    exact ⟨hinv, hscan⟩
  · rw [if_neg h]
    cases hfs : flowStep af with
    | some e => exact ⟨hinv, hscan⟩
    | none =>
      refine ⟨?_, hscan⟩
      intro r hr
      rw [List.mem_append] at hr
      rcases hr with hr | hr
      · exact hinv r hr
      · obtain ⟨u, _, hru⟩ := List.mem_map.mp hr
        refine ⟨st.processed.length - 1, ?_, g1, hg1, h⟩
        rw [← hru]
        simp only [hscan]
        omega

/-- A pair iteration preserves the row/processed-scan invariant. -/
theorem iterPair_invariant (af : Bool) (g1 g2 : Scan) (nr : Bool)
    (st : LoopSt) (hinv : ∀ r ∈ st.tracks, rowOk st.processed r)
    (hscan : st.record.scan = (st.processed.length : ℤ) - 1) :
    (∀ r ∈ (iterPair af g1 g2 nr st).st.tracks,
      rowOk (iterPair af g1 g2 nr st).st.processed r) ∧
    (iterPair af g1 g2 nr st).st.record.scan =
      ((iterPair af g1 g2 nr st).st.processed.length : ℤ) - 1 := by
  have happ : (st.processed ++ [g1])[(st.processed ++ [g1]).length - 1]? =
      some g1 := by
    rw [List.length_append]
    simp only [List.length_cons, List.length_nil]
    rw [List.getElem?_append_right (by omega)]
    simp
  simp only [iterPair]
  apply iterTail_invariant
  · split
    · exact fun r hr => rowOk_append _ _ r (hinv r hr)
    · exact fun r hr => rowOk_append _ _ r (hinv r hr)
  · split
    · exact happ
    · exact happ
  · split
    · simp
    · simp
  · split
    · simp only [Record.update2, List.length_append, List.length_cons,
        List.length_nil]
      push_cast
      omega
    · simp only [Record.update2, List.length_append, List.length_cons,
        List.length_nil]
      push_cast
      omega

/-- The terminal iteration preserves the row/processed-scan invariant. -/
theorem iterTerminal_invariant (af : Bool) (g1 : Scan) (nr : Bool)
    (st : LoopSt) (hinv : ∀ r ∈ st.tracks, rowOk st.processed r)
    (hscan : st.record.scan = (st.processed.length : ℤ) - 1) :
    (∀ r ∈ (iterTerminal af g1 nr st).st.tracks,
      rowOk (iterTerminal af g1 nr st).st.processed r) := by
  unfold iterTerminal
  have happ : (st.processed ++ [g1])[(st.processed ++ [g1]).length - 1]? =
      some g1 := by
    rw [List.length_append]
    simp only [List.length_cons, List.length_nil]
    rw [List.getElem?_append_right (by omega)]
    simp
  refine (iterTail_invariant af g1 nr _ ?_ ?_ (by simp) ?_).1
  · exact fun r hr => rowOk_append _ _ r (hinv r hr)
  · exact happ
  · simp only [Record.update1, List.length_append, List.length_cons,
      List.length_nil]
    push_cast
    omega

/-- Along any run of the loop, every table row points at a processed
scan with a nonempty detection frame. -/
theorem runLoop_rowOk (af : Bool) (rest : List Scan) :
    ∀ (g1 : Scan) (nr pb : Bool) (st : LoopSt),
      (∀ r ∈ st.tracks, rowOk st.processed r) →
      (st.record.scan = (st.processed.length : ℤ) - 1) →
      ∀ r ∈ (runLoop af g1 nr pb st rest).1.tracks,
        rowOk (runLoop af g1 nr pb st rest).1.processed r := by
  induction rest with
  | nil =>
    intro g1 nr pb st hinv hscan
    simp only [runLoop]
    by_cases hname : ¬(nr = true) ∧ ¬(pb = true)
    · rw [if_pos hname]; exact hinv
    · rw [if_neg hname]
      exact iterTerminal_invariant af g1 nr st hinv hscan
  | cons s rest ih =>
    intro g1 nr pb st hinv hscan
    simp only [runLoop]
    by_cases hname : ¬(nr = true) ∧ ¬(pb = true)
    · rw [if_pos hname]; exact hinv
    · rw [if_neg hname]
      by_cases hskip : 30 < listMaxQ g1.raw ∧ listMaxQ s.raw = 0
      · rw [if_pos hskip]
        exact ih g1 nr pb st hinv hscan
      · rw [if_neg hskip]
        have hpi := iterPair_invariant af g1 s nr st hinv hscan
        rcases hrw : iterPair af g1 s nr st with ⟨st', nr', e'⟩
        rw [hrw] at hpi
        cases e' with
        | none => exact ih s nr' true st' hpi.1 hpi.2
        | some e => exact hpi.1

/-- The seed of `List.foldl max` bounds the fold from below. -/
theorem le_foldlMax (xs : List ℚ) (x : ℚ) : x ≤ xs.foldl max x := by
  induction xs generalizing x with
  | nil => exact le_refl x
  | cons y ys ih => exact le_trans (le_max_left x y) (ih (max x y))

/-- Every member of the list bounds `List.foldl max` from below. -/
theorem mem_le_foldlMax (xs : List ℚ) (x y : ℚ) (hy : y ∈ xs) :
    y ≤ xs.foldl max x := by
  induction hy generalizing x with
  | head zs => exact le_trans (le_max_right x y) (le_foldlMax zs _)
  | tail z _ ih => exact ih _

/-- `List.foldl max` stays below any common upper bound. -/
theorem foldlMax_le (xs : List ℚ) : ∀ x b : ℚ, x ≤ b → (∀ y ∈ xs, y ≤ b) →
    xs.foldl max x ≤ b := by
  induction xs with
  | nil => exact fun x b hx _ => hx
  | cons z zs ih =>
    intro x b hx h
    exact ih _ _ (max_le hx (h z (List.mem_cons_self _ _)))
      (fun y hy => h y (List.mem_cons_of_mem _ hy))

/-- `np.max` of an entirely zero array is zero. -/
theorem npMax_eq_zero (M : List (List ℚ)) (h : ∀ row ∈ M, ∀ x ∈ row, x = 0) :
    npMax M = 0 := by
  have hz : ∀ y ∈ M.flatten, y = (0 : ℚ) := by
    intro y hy
    obtain ⟨row, hrow, hyrow⟩ := List.mem_flatten.mp hy
    exact h row hrow y hyrow
  unfold npMax
  cases hf : M.flatten with
  | nil => rfl
  | cons x xs =>
    have hx : x = 0 := hz x (by rw [hf]; exact List.mem_cons_self _ _)
    have hxs : ∀ y ∈ xs, y = (0 : ℚ) := fun y hy =>
      hz y (by rw [hf]; exact List.mem_cons_of_mem _ hy)
    rw [hx]
    exact le_antisymm
      (foldlMax_le xs 0 0 le_rfl fun y hy => le_of_eq (hxs y hy))
      (le_foldlMax xs 0)

/-- Every entry is bounded by `np.max`. -/
theorem le_npMax (M : List (List ℚ)) (x : ℚ) (hx : x ∈ M.flatten) :
    x ≤ npMax M := by
  unfold npMax
  cases hf : M.flatten with
  | nil => rw [hf] at hx; cases hx
  | cons z zs =>
    rw [hf] at hx
    rcases List.mem_cons.mp hx with h | h
    · rw [h]; exact le_foldlMax zs z
    · exact mem_le_foldlMax zs z x h

/-- For an array with nonnegative entries, `np.max = 0` forces every
entry to be zero. -/
theorem all_zero_of_npMax_zero (M : List (List ℚ))
    (hpos : ∀ row ∈ M, ∀ x ∈ row, 0 ≤ x) (h : npMax M = 0) :
    ∀ row ∈ M, ∀ x ∈ row, x = 0 := by
  intro row hrow x hx
  have h1 : x ≤ 0 := h ▸ le_npMax M x (List.mem_flatten_of_mem hrow hx)
  exact le_antisymm h1 (hpos row hrow x hx)

/-- Binarized windows have entries in `{0, 1}`, hence nonnegative. -/
theorem binarize_nonneg (M : List (List ℚ)) :
    ∀ row ∈ binarize M, ∀ x ∈ row, 0 ≤ x := by
  intro row hrow x hx
  obtain ⟨r, _, hrow'⟩ := List.mem_map.mp hrow
  subst hrow'
  obtain ⟨y, _, hxy⟩ := List.mem_map.mp hx
  rw [← hxy]
  by_cases hy0 : y = 0 <;> simp [hy0]

/-- Binarizing an entirely zero window yields an entirely zero window. -/
theorem binarize_all_zero (M : List (List ℚ))
    (h : ∀ row ∈ M, ∀ y ∈ row, y = 0) :
    ∀ row ∈ binarize M, ∀ x ∈ row, x = 0 := by
  intro row hrow x hx
  obtain ⟨r, hr, hrow'⟩ := List.mem_map.mp hrow
  subst hrow'
  obtain ⟨y, hy, hxy⟩ := List.mem_map.mp hx
  rw [← hxy]
  simp [h r hr y hy]

/-- Every entry of a sub-window is an entry of the field, so windows of
an entirely zero field are entirely zero. -/
theorem sliceWindow_all_zero (M : List (List ℚ))
    (h : ∀ row ∈ M, ∀ y ∈ row, y = 0) (a b c d : ℤ) :
    ∀ row ∈ sliceWindow M a b c d, ∀ y ∈ row, y = 0 := by
  intro row hrow y hy
  obtain ⟨r, hr, hrow'⟩ := List.mem_map.mp hrow
  subst hrow'
  have hrM : r ∈ M := List.mem_of_mem_take (List.mem_of_mem_drop hr)
  have hyr : y ∈ r := List.mem_of_mem_take (List.mem_of_mem_drop hy)
  exact h r hrM y hyr

/-- Both windows extracted by `get_ambient_flow` are binarized, hence
have nonnegative entries. -/
theorem ambientWindows_nonneg (center : ℚ × ℚ) (radius fm gy gx : ℚ)
    (A B : List (List ℚ)) :
    (∀ row ∈ (ambientWindows center radius fm gy gx A B).1,
      ∀ x ∈ row, 0 ≤ x) ∧
    (∀ row ∈ (ambientWindows center radius fm gy gx A B).2,
      ∀ x ∈ row, 0 ≤ x) :=
  ⟨binarize_nonneg _, binarize_nonneg _⟩

end TINT

open TINT in
/-- Claim C7: with `fieldB` entirely zero and `fieldA` nonzero,
global-shift estimation returns a (possibly degenerate) value — the
embedded pipeline is total, matching the source, which raises no
exception on this path — while ambient-flow estimation on the same
fields returns `None`; and in local (non-global) mode the result is
`None` exactly when at least one binarized window is entirely zero. -/
theorem C7_zero_field_handling (A B : List (List ℚ))
    (hB : ∀ row ∈ B, ∀ x ∈ row, x = 0) (hA : npMax A ≠ 0) :
    (get_global_shift A (some B)).result.isSome = true ∧
    (∀ (center : ℚ × ℚ) (radius flowMargin gsY gsX : ℚ),
      (get_ambient_flow center radius flowMargin gsY gsX A B).result = none) ∧
    (∀ (C D : List (List ℚ)) (center : ℚ × ℚ)
        (radius flowMargin gsY gsX : ℚ),
      (get_ambient_flow center radius flowMargin gsY gsX C D).result = none ↔
        ((∀ row ∈ (ambientWindows center radius flowMargin gsY gsX C D).1,
            ∀ x ∈ row, x = 0) ∨
         (∀ row ∈ (ambientWindows center radius flowMargin gsY gsX C D).2,
            ∀ x ∈ row, x = 0))) := by
  refine ⟨?_, ?_, ?_⟩
  · simp [get_global_shift, fft_flowvectors]
  · intro center radius fm gy gx
    have hw2 : ∀ row ∈ (ambientWindows center radius fm gy gx A B).2,
        ∀ x ∈ row, x = 0 :=
      binarize_all_zero _ (sliceWindow_all_zero B hB _ _ _ _)
    show (fft_flowvectors _ _ false).result = none
    unfold fft_flowvectors
    rw [if_pos ⟨by simp, Or.inr (npMax_eq_zero _ hw2)⟩]
  · intro C D center radius fm gy gx
    constructor
    · intro hnone
      unfold get_ambient_flow fft_flowvectors at hnone
      by_cases hc : ¬(false = true) ∧
          (npMax (ambientWindows center radius fm gy gx C D).1 = 0 ∨
           npMax (ambientWindows center radius fm gy gx C D).2 = 0)
      · rcases hc.2 with h | h
        · exact Or.inl (all_zero_of_npMax_zero _
            (ambientWindows_nonneg center radius fm gy gx C D).1 h)
        · exact Or.inr (all_zero_of_npMax_zero _
            (ambientWindows_nonneg center radius fm gy gx C D).2 h)
      · rw [if_neg hc] at hnone
        simp at hnone
    · intro h
      show (fft_flowvectors _ _ false).result = none
      unfold fft_flowvectors
      rcases h with h | h
      · rw [if_pos ⟨by simp, Or.inl (npMax_eq_zero _ h)⟩]
      · rw [if_pos ⟨by simp, Or.inr (npMax_eq_zero _ h)⟩]

open TINT in
/-- Witness for C7 at `fieldA = [[1]]`, `fieldB = [[0]]`. -/
theorem C7_zero_field_handling_witness :
    (get_global_shift [[1]] (some [[0]])).result.isSome = true ∧
    (get_ambient_flow ((0 : ℚ), (0 : ℚ)) 1 1 1 1 [[1]] [[0]]).result = none := by
  have h := C7_zero_field_handling [[1]] [[0]] (by decide) (by decide)
  exact ⟨h.1, h.2.1 (0, 0) 1 1 1 1⟩

open TINT in
/-- Claim C6: an iteration whose current detection frame is entirely
empty appends no row, leaves the flow-call counter untouched (flow
estimation and matching are skipped), clears the registry and marks a
fresh object set pending — in both the pair and the terminal iteration,
and in both the as-written and the arity-repaired model; a subsequent
nonempty frame then mints fresh uids from the Counter; and in any run
on a fresh instance, every TracksTable row points at a processed scan
whose detection frame was nonempty. -/
theorem C6_empty_frame_skip :
    (∀ (af : Bool) (g1 g2 : Scan) (nr : Bool) (st : LoopSt),
      listMaxN g1.frame = 0 →
        (iterPair af g1 g2 nr st).st.tracks = st.tracks ∧
        (iterPair af g1 g2 nr st).st.flowCalls = st.flowCalls ∧
        (iterPair af g1 g2 nr st).st.currentObjects = none ∧
        (iterPair af g1 g2 nr st).newRain = true ∧
        (iterPair af g1 g2 nr st).err = none) ∧
    (∀ (af : Bool) (g1 : Scan) (nr : Bool) (st : LoopSt),
      listMaxN g1.frame = 0 →
        (iterTerminal af g1 nr st).st.tracks = st.tracks ∧
        (iterTerminal af g1 nr st).st.flowCalls = st.flowCalls ∧
        (iterTerminal af g1 nr st).st.currentObjects = none ∧
        (iterTerminal af g1 nr st).newRain = true ∧
        (iterTerminal af g1 nr st).err = none) ∧
    (∀ (g1 : Scan) (st : LoopSt), listMaxN g1.frame ≠ 0 →
      (iterTail true g1 true st).st.currentObjects =
        some (mintUids st.counter (nObj g1.frame))) ∧
    (∀ scans : List Scan, ∀ r ∈ (get_tracksSpec CT.fresh scans).ct.tracks,
      rowOk (get_tracksSpec CT.fresh scans).processed r) := by
  refine ⟨?_, ?_, ?_, ?_⟩
  · intro af g1 g2 nr st h
    refine ⟨?_, ?_, ?_, ?_, ?_⟩ <;>
      simp only [iterPair, iterTail, if_pos h] <;>
      first
      | rfl
      | (split <;> rfl)
      | trivial
  · intro af g1 nr st h
    refine ⟨?_, ?_, ?_, ?_, ?_⟩ <;>
      simp only [iterTerminal, iterTail, if_pos h] <;>
      first
      | rfl
      | (split <;> rfl)
      | trivial
  · intro g1 st h
    simp [iterTail, if_neg h, flowStep, initObjects]
  · intro scans r hr
    cases scans with
    | nil => simp [get_tracksSpec, get_tracksModel, CT.fresh] at hr
    | cons g rest =>
      have hfin : ∀ p : LoopSt × Option PyErr,
          (finishRun p).ct.tracks = p.1.tracks ∧
          (finishRun p).processed = p.1.processed := by
        rintro ⟨st, e⟩
        cases e <;> exact ⟨rfl, rfl⟩
      have hstep : get_tracksSpec CT.fresh (g :: rest) =
          finishRun (runLoop true g true false
            ⟨0, Record.init g, none, [], none, none, none, none, 0, []⟩ rest) := rfl
      rw [hstep] at hr ⊢
      rw [(hfin _).1] at hr
      rw [(hfin _).2]
      refine runLoop_rowOk true rest g true false _ ?_ ?_ r hr
      · intro r' hr'
        exact absurd hr' (List.not_mem_nil r')
      · norm_num [Record.init]

open TINT in
/-- Witness for C6: a concrete empty-frame pair iteration writes no row
and resets the registry, and the one-scan spec run's only row `(0, 0)`
points at a nonempty processed scan. -/
theorem C6_empty_frame_skip_witness :
    (iterPair false ⟨0, [0], [0]⟩ ⟨600, [35], [1]⟩ false
        ⟨0, ⟨-1, 0, none⟩, none, [], none, none, none, none, 0, []⟩).err = none ∧
    rowOk (get_tracksSpec CT.fresh [scanA]).processed ((0 : ℤ), (0 : ℕ)) := by
  have h := C6_empty_frame_skip
  exact ⟨(h.1 false ⟨0, [0], [0]⟩ ⟨600, [35], [1]⟩ false
      ⟨0, ⟨-1, 0, none⟩, none, [], none, none, none, none, 0, []⟩
      (by decide)).2.2.2.2,
    h.2.2.2 [scanA] ((0 : ℤ), (0 : ℕ)) (by decide)⟩

open TINT in
/-- Claim C5: a gap longer than one day is *not* treated as a time
discontinuity.  With consecutive scans 86410 s apart (one day and ten
seconds, far exceeding 1700 s), line 246 tests
`record.interval.seconds > 1700`, and `timedelta.seconds` is the
sub-day component (here 10), so the registry is not cleared: the object
keeps uid 0 across the gap (rows `(0,0)` and `(1,0)`), violating the
claimed uid disjointness. -/
theorem C5_day_wrap_gap_missed :
    (get_tracksSpec CT.fresh [scanG1, scanG2]).ct.tracks = [(0, 0), (1, 0)] ∧
    (get_tracksSpec CT.fresh [scanG1, scanG2]).ct.currentObjects = some [0] ∧
    (get_tracksSpec CT.fresh [scanG1, scanG2]).err = none ∧
    1700 < scanG2.time - scanG1.time ∧
    tdSeconds (scanG2.time - scanG1.time) = 10 := by
  refine ⟨by decide, by decide, by decide, by decide, by decide⟩

namespace TINT

/-- DFT of the constant field `[[1, 1]]`: a single nonzero coefficient
`2` at frequency `(0,0)` (the length-2 axis uses the roots `1, -1`). -/
theorem fft2_ones : fft2 (toCMat [[1, 1]]) = [[2, 0]] := by
  unfold toCMat fft2
  simp only [List.map_cons, List.map_nil, List.length_cons, List.length_nil,
    List.headD_cons]
  norm_num [List.range_succ, Finset.sum_range_succ, Finset.sum_range_one]
  rw [show -(2 * (Real.pi : ℂ) * Complex.I * (1 / 2)) = -(Real.pi * Complex.I)
      by ring,
    Complex.exp_neg, Complex.exp_pi_mul_I]
  norm_num

/-- Self cross-covariance of `[[1, 1]]`: the normalized cross-power
spectrum is `[[1, 0]]`, whose inverse transform is the constant `1/2`;
the quadrant swap of a constant surface is itself. -/
theorem crosscov_ones :
    fft_crosscov (toCMat [[1, 1]]) (toCMat [[1, 1]]) 1 1 =
      [[(1 / 2 : ℝ), 1 / 2]] := by
  unfold fft_crosscov
  rw [fft2_ones]
  norm_num [List.zipWith]
  have h1 : (2 * (starRingEnd ℂ) 2 / 4 : ℂ) = 1 := by
    rw [map_ofNat]; norm_num
  rw [h1]
  have h2 : ifft2 [[(1 : ℂ), 0]] = [[1 / 2, 1 / 2]] := by
    unfold ifft2
    simp only [List.length_cons, List.length_nil, List.headD_cons]
    norm_num [List.range_succ, Finset.sum_range_succ, Finset.sum_range_one]
  rw [h2]
  norm_num [fft_shift]

/-- `reflect` boundary indexing into a length-1 axis is constant 0. -/
theorem reflectIdx_one (i : ℤ) : reflectIdx 1 i = 0 := by
  simp only [reflectIdx]
  norm_num
  split <;> omega

/-- `reflect` boundary indexing stays in range. -/
theorem reflectIdx_lt (n : ℕ) (hn : 0 < n) (i : ℤ) : reflectIdx n i < n := by
  simp only [reflectIdx]
  rw [if_neg (by omega)]
  split <;> omega

/-- The Gaussian kernel normalizer is positive. -/
theorem gaussNorm_pos (σ : ℝ) : 0 < gaussNorm σ := by
  refine Finset.sum_pos (fun k _ => Real.exp_pos _) ?_
  exact ⟨0, Finset.mem_Icc.mpr
    ⟨neg_nonpos.mpr (Int.natCast_nonneg _), Int.natCast_nonneg _⟩⟩

/-- The axis-0 pass is the identity on a single-row surface (every
reflected row index is 0, and the normalized kernel sums to 1). -/
theorem gfilterCols_single (σ : ℝ) (a b : ℝ) :
    gfilterCols σ [[a, b]] = [[a, b]] := by
  unfold gfilterCols
  simp only [List.length_cons, List.length_nil, List.headD_cons]
  have hW : ∑ k ∈ Finset.Icc (-(gaussHalfWidth σ : ℤ)) (gaussHalfWidth σ : ℤ),
      gaussWeight σ k = gaussNorm σ := rfl
  norm_num [List.range_succ, reflectIdx_one]
  constructor <;>
  · rw [← Finset.sum_mul, hW,
      mul_div_cancel_left₀ _ (ne_of_gt (gaussNorm_pos σ))]

/-- Both in-range lookups into `[c, c]` give `c`. -/
theorem getD_pair_lt (c : ℝ) (m : ℕ) (hm : m < 2) :
    ([c, c] : List ℝ).getD m 0 = c := by
  interval_cases m <;> rfl

/-- The axis-1 pass preserves a constant length-2 row. -/
theorem gfilterRow_pairc (σ : ℝ) (c : ℝ) : gfilterRow σ [c, c] = [c, c] := by
  unfold gfilterRow
  have hW : ∑ k ∈ Finset.Icc (-(gaussHalfWidth σ : ℤ)) (gaussHalfWidth σ : ℤ),
      gaussWeight σ k = gaussNorm σ := rfl
  have hterm : ∀ i : ℕ,
      (∑ k ∈ Finset.Icc (-(gaussHalfWidth σ : ℤ)) (gaussHalfWidth σ : ℤ),
        gaussWeight σ k * ([c, c] : List ℝ).getD (reflectIdx 2 ((i : ℤ) + k)) 0) =
      gaussNorm σ * c := by
    intro i
    rw [← hW, Finset.sum_mul]
    refine Finset.sum_congr rfl (fun k _ => ?_)
    rw [getD_pair_lt c _ (reflectIdx_lt 2 (by norm_num) _)]
  have h2 : ([c, c] : List ℝ).length = 2 := rfl
  rw [h2]
  have hr2 : List.range 2 = [0, 1] := rfl
  rw [hr2]
  simp only [List.map_cons, List.map_nil]
  have he : ∀ i : ℕ,
      (∑ k ∈ Finset.Icc (-(gaussHalfWidth σ : ℤ)) (gaussHalfWidth σ : ℤ),
        gaussWeight σ k * ([c, c] : List ℝ).getD (reflectIdx 2 ((i : ℤ) + k)) 0) /
        gaussNorm σ = c := by
    intro i
    rw [hterm i, mul_div_cancel_left₀ _ (ne_of_gt (gaussNorm_pos σ))]
  rw [he 0, he 1]

/-- Gaussian smoothing preserves the constant `1×2` surface, for every
standard deviation. -/
theorem gaussian_filter_pairc (σ : ℝ) (c : ℝ) :
    gaussian_filter [[c, c]] σ = [[c, c]] := by
  unfold gaussian_filter
  rw [gfilterCols_single, List.map_cons, List.map_nil, gfilterRow_pairc]

/-- `np.max` of the constant `1×2` surface. -/
theorem npMaxR_pairc (c : ℝ) : npMaxR [[c, c]] = c := by
  unfold npMaxR
  simp

/-- On a flat surface the first row-major maximizer is `(0, 0)` — the
tie-breaking behavior of `np.argwhere(...)[0]`. -/
theorem argmax_pairc (c : ℝ) : argwhereMaxFst [[c, c]] = (0, 0) := by
  unfold argwhereMaxFst
  rw [npMaxR_pairc]
  have hidx : ((List.range ([[c, c]] : List (List ℝ)).length).flatMap fun i =>
      (List.range ((([[c, c]] : List (List ℝ)).getD i []).length)).map
        fun j => ((i : ℤ), (j : ℤ))) = [((0 : ℤ), (0 : ℤ)), (0, 1)] := rfl
  rw [hidx]
  dsimp only
  have hfind : (List.find?
      (fun p : ℤ × ℤ =>
        @decide ((([[c, c]] : List (List ℝ)).getD p.1.toNat []).getD
            p.2.toNat 0 = c)
          (Classical.propDecidable _))
      [((0 : ℤ), (0 : ℤ)), (0, 1)]) = some (0, 0) :=
    List.find?_cons_of_pos _ (decide_eq_true rfl)
  rw [hfind]
  rfl

/-- The full peak-shift pipeline on the constant field against itself:
flat surface, argmax tie-broken to `(0,0)`, pivot correction
`- (dims - [rd, cd])` leaves the spurious shift `(0, -1)`. -/
theorem pshiftOf_ones : pshiftOf [[1, 1]] [[1, 1]] = (0, -1) := by
  unfold pshiftOf
  dsimp only
  norm_num
  rw [crosscov_ones, gaussian_filter_pairc, argmax_pairc]
  norm_num

end TINT

open TINT in
/-- Claim C9 fails on the code: for the nonzero constant field
`F = [[1, 1]]`, estimating the global shift of `F` against itself
returns `(0, -1)`, not `(0, 0)`: the smoothed self cross-covariance
surface is constant, `np.argwhere(surface == max)[0]` tie-breaks to
`(0, 0)`, and subtracting `dims - [rd, cd]` then fabricates a shift. -/
theorem C9_self_shift_not_zero :
    (get_global_shift [[1, 1]] (some [[1, 1]])).result =
      some ((0 : ℤ), (-1 : ℤ)) ∧
    (((0 : ℤ), (-1 : ℤ)) ≠ ((0 : ℤ), (0 : ℤ))) ∧ npMax [[1, 1]] ≠ 0 := by
  refine ⟨?_, by decide, by decide⟩
  show (fft_flowvectors [[1, 1]] [[1, 1]] true).result = _
  unfold fft_flowvectors
  rw [if_neg (by simp)]
  show some (pshiftOf [[1, 1]] [[1, 1]]) = _
  rw [pshiftOf_ones]
